import Mathlib

/-!
# PyCalc: shallow embedding of the expression-evaluation core

This file embeds the core of the PyCalc repository
(`calculator/operations.py` and `calculator/parser.py`) in Lean 4 and
proves properties of the embedded code.

Modelling decisions:

* Python `float` (`Number = float`) is modelled by `ℚ`.  Every numeric
  literal and every arithmetic step appearing in the verified statements
  is exact in binary floating point (small integers under `+ - * / ^`),
  so the rational model agrees with the Python semantics on all inputs
  used below.
* Python exceptions are modelled by `Except CalcError`; each distinct
  exception raised by the source becomes one constructor of `CalcError`.
* The Python `dict` of the operation registry is modelled by an
  association list with in-place replacement, which has the same
  lookup/overwrite semantics for the operations used.
-/

set_option autoImplicit false

namespace PyCalc

/-- The distinct failure kinds raised by the source code.

* `unexpectedCharacter i c` — `ValueError(f"Unexpected character at position {i}: '{c}'")`
  in `ExpressionParser._tokenise`;
* `mismatchedParentheses` — `ValueError("Mismatched parentheses")` in
  `ExpressionParser._to_rpn` (both raise sites);
* `insufficientValues` — `ValueError("Insufficient values in expression")`
  in `ExpressionParser._eval_rpn`;
* `invalidTokenInRPN` — `ValueError("Invalid token in RPN expression")`
  in `ExpressionParser._eval_rpn`;
* `invalidExpression` — `ValueError("Invalid expression")` in
  `ExpressionParser._eval_rpn`;
* `unknownOperator s` — the `KeyError` raised by `OperationEngine.get`;
* `zeroDivision` — `ZeroDivisionError("division by zero")` in
  `OperationEngine._safe_divide` (the spec's `ArithmeticFailure` kind);
* `invalidOperatorSymbol` — `ValueError("Operation symbol must be a single
  character.")` in `OperationEngine.register` (the spec's
  `InvalidOperatorSymbol` kind). -/
inductive CalcError where
  | unexpectedCharacter (position : Nat) (character : Char)
  | mismatchedParentheses
  | insufficientValues
  | invalidTokenInRPN
  | invalidExpression
  | unknownOperator (symbol : String)
  | zeroDivision
  | invalidOperatorSymbol
  deriving Repr, DecidableEq

/-- The four token dataclasses of `calculator/parser.py`:
`NumberToken`, `OperatorToken`, `LeftParenToken`, `RightParenToken`. -/
inductive Token where
  | num (value : ℚ)
  | op (symbol : String)
  | lparen
  | rparen
  deriving Repr, DecidableEq

/-- `calculator.operations.Operation`: a registered binary operation.
`func` may fail (e.g. `_safe_divide` raises `ZeroDivisionError`), hence
the `Except` codomain. -/
structure Operation where
  symbol : String
  func : ℚ → ℚ → Except CalcError ℚ
  precedence : Int
  associative : Bool := true

/-- `calculator.operations.OperationEngine`: the `_operations` dict,
modelled as an association list from symbol to operation. -/
structure OperationEngine where
  operations : List (String × Operation)

/-- Dict lookup `self._operations[symbol]` returning `none` when absent. -/
def findOp : List (String × Operation) → String → Option Operation
  | [], _ => none
  | (k, v) :: rest, s => if k = s then some v else findOp rest s

/-- Dict assignment `self._operations[symbol] = op`: replaces the binding
in place when the key is present, otherwise appends it. -/
def setOp : List (String × Operation) → String → Operation → List (String × Operation)
  | [], s, op => [(s, op)]
  | (k, v) :: rest, s, op => if k = s then (s, op) :: rest else (k, v) :: setOp rest s op

/-- `OperationEngine.has`: `symbol in self._operations`. -/
def OperationEngine.has (e : OperationEngine) (s : String) : Bool :=
  (findOp e.operations s).isSome

/-- `OperationEngine.get`: dict lookup raising `KeyError` when absent. -/
def OperationEngine.get (e : OperationEngine) (s : String) : Except CalcError Operation :=
  match findOp e.operations s with
  | some op => .ok op
  | none => .error (.unknownOperator s)

/-- `OperationEngine.apply`: look up the operation and invoke its function,
propagating any failure the function raises. -/
def OperationEngine.apply (e : OperationEngine) (s : String) (left right : ℚ) :
    Except CalcError ℚ := do
  let op ← e.get s
  op.func left right

/-- `OperationEngine.register`: fails when `len(symbol) != 1` (the Python
guard `not symbol or len(symbol) != 1` is equivalent to that), otherwise
stores the new operation, overwriting any previous binding. -/
def OperationEngine.register (e : OperationEngine) (s : String)
    (f : ℚ → ℚ → Except CalcError ℚ) (precedence : Int) (associative : Bool := true) :
    Except CalcError OperationEngine :=
  if s.length ≠ 1 then .error .invalidOperatorSymbol
  else .ok ⟨setOp e.operations s ⟨s, f, precedence, associative⟩⟩

/-- `OperationEngine._safe_divide`: raises `ZeroDivisionError` when the
right operand is exactly zero. -/
def safeDivide (a b : ℚ) : Except CalcError ℚ :=
  if b = 0 then .error .zeroDivision else .ok (a / b)

/-- Python `a ** b` on floats, restricted to the integer exponents the
program's verified statements exercise: for `b` with denominator 1 this is
exact exponentiation (negative exponents via the reciprocal); non-integer
exponents (whose float result is irrational in general) are outside the
rational model and are given the arbitrary value 0 — no verified statement
depends on that branch. -/
def qpow (a b : ℚ) : ℚ :=
  if b.den = 1 then
    if 0 ≤ b.num then a ^ b.num.toNat else (a ^ b.num.natAbs)⁻¹
  else 0

/-- `OperationEngine._register_default_operations` applied to a fresh
engine: registers `+`(1), `-`(1), `*`(2), `/`(2), `^`(3) in order. -/
def registerDefaultOperations (e : OperationEngine) : Except CalcError OperationEngine := do
  let e ← e.register "+" (fun a b => .ok (a + b)) 1
  let e ← e.register "-" (fun a b => .ok (a - b)) 1
  let e ← e.register "*" (fun a b => .ok (a * b)) 2
  let e ← e.register "/" safeDivide 2
  let e ← e.register "^" (fun a b => .ok (qpow a b)) 3
  pure e

/-- `OperationEngine.__init__`: the engine holding exactly the five default
operations (registration of the defaults cannot fail, see
`registerDefaultOperations_ok`). -/
def defaultEngine : OperationEngine :=
  ⟨[("+", ⟨"+", fun a b => .ok (a + b), 1, true⟩),
    ("-", ⟨"-", fun a b => .ok (a - b), 1, true⟩),
    ("*", ⟨"*", fun a b => .ok (a * b), 2, true⟩),
    ("/", ⟨"/", safeDivide, 2, true⟩),
    ("^", ⟨"^", fun a b => .ok (qpow a b), 3, true⟩)]⟩

/-! ## Tokenisation (`ExpressionParser._tokenise`) -/

/-- The inner scanning loop of the number-literal branch: consumes
contiguous digits and at most one `.` (tracked by `hasDot`), returning the
consumed characters and the remaining input. -/
def numLit : Bool → List Char → List Char × List Char
  | _, [] => ([], [])
  | hasDot, c :: rest =>
    if c.isDigit then
      let p := numLit hasDot rest
      (c :: p.1, p.2)
    else if c = '.' ∧ ¬hasDot then
      let p := numLit true rest
      (c :: p.1, p.2)
    else ([], c :: rest)

/-- The value of a string of decimal digits. -/
def digitsVal (l : List Char) : Nat :=
  l.foldl (fun acc c => acc * 10 + (c.toNat - '0'.toNat)) 0

/-- Python `float(expression[start:i])` applied to the scanned literal
(digits with at most one `.`): integer part plus fractional part. -/
def parseFloat (l : List Char) : ℚ :=
  let intPart := l.takeWhile (· ≠ '.')
  let fracPart := (l.dropWhile (· ≠ '.')).drop 1
  (digitsVal intPart : ℚ) + (digitsVal fracPart : ℚ) / (10 : ℚ) ^ fracPart.length

/-- The scanning loop of `_tokenise` over the remaining characters, with
`i` the 0-based position of the first remaining character in the original
string.  The `fuel` argument makes the recursion structural; every step
consumes at least one character, so calling with `fuel ≥` the number of
remaining characters (as `tokenise` does) never reaches the fuel-exhausted
case. -/
def tokeniseAux (e : OperationEngine) : Nat → List Char → Nat → Except CalcError (List Token)
  | _, [], _ => .ok []
  | 0, _ :: _, _ => .ok []
  | fuel + 1, ch :: rest, i =>
    if ch.isWhitespace then
      tokeniseAux e fuel rest (i + 1)
    else if ch.isDigit ∨ (ch = '.' ∧ (rest.headD ' ').isDigit) then
      let p := numLit (ch = '.') rest
      match tokeniseAux e fuel p.2 (i + 1 + p.1.length) with
      | .ok ts => .ok (.num (parseFloat (ch :: p.1)) :: ts)
      | .error err => .error err
    else if ch = '(' then
      match tokeniseAux e fuel rest (i + 1) with
      | .ok ts => .ok (.lparen :: ts)
      | .error err => .error err
    else if ch = ')' then
      match tokeniseAux e fuel rest (i + 1) with
      | .ok ts => .ok (.rparen :: ts)
      | .error err => .error err
    else if e.has (String.mk [ch]) then
      match tokeniseAux e fuel rest (i + 1) with
      | .ok ts => .ok (.op (String.mk [ch]) :: ts)
      | .error err => .error err
    else
      .error (.unexpectedCharacter i ch)

/-- `ExpressionParser._tokenise`. -/
def tokenise (e : OperationEngine) (s : String) : Except CalcError (List Token) :=
  tokeniseAux e s.data.length s.data 0

/-! ## Infix to RPN (`ExpressionParser._to_rpn`) -/

/-- The precedence-popping loop run when an operator token `cur` arrives:
while the stack top is an operator token, look up both operations and,
if the top's precedence is greater than or equal to `cur`'s, move the top
to the output; stop otherwise.  Returns the new stack and output.  The
head of the `ops` list is the top of the Python stack. -/
def popWhileGE (e : OperationEngine) (cur : String) :
    List Token → List Token → Except CalcError (List Token × List Token)
  | Token.op s :: ops, output => do
    let topOp ← e.get s
    let curOp ← e.get cur
    if topOp.precedence ≥ curOp.precedence then
      popWhileGE e cur ops (output ++ [Token.op s])
    else
      .ok (Token.op s :: ops, output)
  | ops, output => .ok (ops, output)

/-- The loop run when a right-parenthesis token arrives: pop stack entries
to the output until a left parenthesis is found and discard it; if the
stack empties first, fail with `mismatchedParentheses`. -/
def popUntilLParen :
    List Token → List Token → Except CalcError (List Token × List Token)
  | [], _ => .error .mismatchedParentheses
  | Token.lparen :: ops, output => .ok (ops, output)
  | t :: ops, output => popUntilLParen ops (output ++ [t])

/-- The final drain of `_to_rpn`: pop all remaining stack entries to the
output, failing with `mismatchedParentheses` on a left parenthesis. -/
def drainOps : List Token → List Token → Except CalcError (List Token)
  | [], output => .ok output
  | Token.lparen :: _, _ => .error .mismatchedParentheses
  | t :: ops, output => drainOps ops (output ++ [t])

/-- The `prev is None or isinstance(prev, (OperatorToken, LeftParenToken))`
test guarding unary-minus normalisation. -/
def unaryContext : Option Token → Bool
  | none => true
  | some (.op _) => true
  | some .lparen => true
  | _ => false

/-- The token loop of `_to_rpn` over the remaining tokens, carrying the
output list, the operator/paren stack (head = top) and the previous
token. -/
def toRpnAux (e : OperationEngine) :
    List Token → List Token → List Token → Option Token → Except CalcError (List Token)
  | [], output, ops, _ => drainOps ops output
  | Token.num v :: ts, output, ops, _ =>
    toRpnAux e ts (output ++ [Token.num v]) ops (some (Token.num v))
  | Token.op s :: ts, output, ops, prev => do
    let output1 := if s = "-" ∧ unaryContext prev then output ++ [Token.num 0] else output
    let p ← popWhileGE e s ops output1
    toRpnAux e ts p.2 (Token.op s :: p.1) (some (Token.op s))
  | Token.lparen :: ts, output, ops, _ =>
    toRpnAux e ts output (Token.lparen :: ops) (some Token.lparen)
  | Token.rparen :: ts, output, ops, _ => do
    let p ← popUntilLParen ops output
    toRpnAux e ts p.2 p.1 (some Token.rparen)

/-- `ExpressionParser._to_rpn`. -/
def toRpn (e : OperationEngine) (tokens : List Token) : Except CalcError (List Token) :=
  toRpnAux e tokens [] [] none

/-! ## RPN evaluation (`ExpressionParser._eval_rpn`) -/

/-- The token loop of `_eval_rpn` over the value stack (head = top).  On an
operator token the first pop `b` is the right operand and the second pop
`a` the left one, and `engine.apply(symbol, a, b)` is invoked. -/
def evalRpnAux (e : OperationEngine) : List Token → List ℚ → Except CalcError (List ℚ)
  | [], stack => .ok stack
  | Token.num v :: ts, stack => evalRpnAux e ts (v :: stack)
  | Token.op s :: ts, stack =>
    match stack with
    | b :: a :: rest => do
      let res ← e.apply s a b
      evalRpnAux e ts (res :: rest)
    | _ => .error .insufficientValues
  | _ :: _, _ => .error .invalidTokenInRPN

/-- `ExpressionParser._eval_rpn`.  Note the faithful final step: after the
length-1 check the source executes `return stack` — it returns the whole
value stack (a one-element list), not the element itself, despite its
`-> Number` declaration. -/
def evalRpn (e : OperationEngine) (tokens : List Token) : Except CalcError (List ℚ) := do
  let stack ← evalRpnAux e tokens []
  if stack.length ≠ 1 then .error .invalidExpression
  else .ok stack

/-- `ExpressionParser.evaluate`: tokenise, convert to RPN, evaluate.  Its
result type mirrors the source's actual behaviour of returning the final
value stack (see `evalRpn`). -/
def evaluate (e : OperationEngine) (s : String) : Except CalcError (List ℚ) := do
  let tokens ← tokenise e s
  let rpn ← toRpn e tokens
  evalRpn e rpn

/-- `ExpressionParser().evaluate`, with the default engine. -/
def evaluateDefault (s : String) : Except CalcError (List ℚ) :=
  evaluate defaultEngine s

/-- The token shapes `_eval_rpn` accepts: `NumberToken` or `OperatorToken`. -/
def Token.isNumOrOp : Token → Bool
  | .num _ => true
  | .op _ => true
  | _ => false

/-- The token shapes `_to_rpn` keeps on its operator stack:
`OperatorToken` or `LeftParenToken`. -/
def Token.isOpOrParen : Token → Bool
  | .op _ => true
  | .lparen => true
  | _ => false

/-! ## Helper lemmas -/

theorem registerDefaultOperations_ok :
    registerDefaultOperations ⟨[]⟩ = .ok defaultEngine := rfl

/-- Consuming a number literal never lengthens the remaining input, so the
initial fuel `s.length` used by `tokenise` is never exhausted. -/
theorem numLit_snd_length_le (hasDot : Bool) (l : List Char) :
    (numLit hasDot l).2.length ≤ l.length := by
  induction l generalizing hasDot with
  | nil => simp [numLit]
  | cons c rest ih =>
    simp only [numLit]
    split
    · exact le_trans (ih hasDot) (Nat.le_succ _)
    · split
      · exact le_trans (ih true) (Nat.le_succ _)
      · simp

theorem parseFloat_zero : parseFloat ['0'] = 0 := by
  show ((0 : ℕ) : ℚ) + ((0 : ℕ) : ℚ) / (10 : ℚ) ^ (0 : ℕ) = 0
  norm_num

theorem parseFloat_one : parseFloat ['1'] = 1 := by
  show ((1 : ℕ) : ℚ) + ((0 : ℕ) : ℚ) / (10 : ℚ) ^ (0 : ℕ) = 1
  norm_num

theorem parseFloat_two : parseFloat ['2'] = 2 := by
  show ((2 : ℕ) : ℚ) + ((0 : ℕ) : ℚ) / (10 : ℚ) ^ (0 : ℕ) = 2
  norm_num

theorem parseFloat_three : parseFloat ['3'] = 3 := by
  show ((3 : ℕ) : ℚ) + ((0 : ℕ) : ℚ) / (10 : ℚ) ^ (0 : ℕ) = 3
  norm_num

/-- Splitting `evaluate` at a known tokenisation result. -/
theorem evaluate_tokens (e : OperationEngine) (s : String) (ts : List Token)
    (h : tokenise e s = .ok ts) :
    evaluate e s = do { let rpn ← toRpn e ts; evalRpn e rpn } := by
  unfold evaluate
  rw [h]
  rfl

/-- `get` only ever fails with `unknownOperator` (the `KeyError`). -/
theorem get_error_unknown (e : OperationEngine) (s : String) (err : CalcError)
    (h : e.get s = .error err) : err = .unknownOperator s := by
  unfold OperationEngine.get at h
  cases hf : findOp e.operations s <;> rw [hf] at h
  · injection h with h'
    exact h'.symm
  · cases h

/-- A successful `findOp` lookup returns an entry of the list. -/
theorem findOp_mem (l : List (String × Operation)) (s : String) (op : Operation)
    (h : findOp l s = some op) : (s, op) ∈ l := by
  induction l with
  | nil => simp [findOp] at h
  | cons kv rest ih =>
    obtain ⟨k, v⟩ := kv
    simp only [findOp] at h
    split at h
    · next heq =>
      injection h with h'
      subst heq
      subst h'
      exact List.mem_cons_self _ _
    · exact List.mem_cons_of_mem _ (ih h)

/-- `apply` fails either because the symbol is unregistered (`KeyError`)
or because the registered function itself failed. -/
theorem apply_error_cases (e : OperationEngine) (s : String) (a b : ℚ) (err : CalcError)
    (h : e.apply s a b = .error err) :
    err = .unknownOperator s ∨
      ∃ op : Operation, findOp e.operations s = some op ∧ op.func a b = .error err := by
  unfold OperationEngine.apply OperationEngine.get at h
  cases hf : findOp e.operations s <;> rw [hf] at h
  · left
    have h' : (Except.error (.unknownOperator s) : Except CalcError ℚ) = .error err := h
    injection h' with h''
    exact h''.symm
  · next op => exact Or.inr ⟨op, rfl, h⟩

/-- Every operator function of the default registry either succeeds or
fails with `zeroDivision` (only `_safe_divide` can fail). -/
theorem defaultEngine_func_errors (p : String × Operation)
    (hp : p ∈ defaultEngine.operations) (a b : ℚ) (err : CalcError)
    (h : p.2.func a b = .error err) : err = .zeroDivision := by
  simp only [defaultEngine, List.mem_cons, List.not_mem_nil, or_false] at hp
  rcases hp with rfl | rfl | rfl | rfl | rfl
  · cases h
  · cases h
  · cases h
  · have h' : safeDivide a b = .error err := h
    unfold safeDivide at h'
    split at h'
    · injection h' with h''
      exact h''.symm
    · cases h'
  · cases h

/-- With the default registry, `apply` fails only with `unknownOperator`
or `zeroDivision`. -/
theorem apply_default_error (s : String) (a b : ℚ) (err : CalcError)
    (h : defaultEngine.apply s a b = .error err) :
    err = .unknownOperator s ∨ err = .zeroDivision := by
  rcases apply_error_cases defaultEngine s a b err h with h1 | ⟨op, hf, hfunc⟩
  · exact Or.inl h1
  · exact Or.inr (defaultEngine_func_errors (s, op) (findOp_mem _ _ _ hf) a b err hfunc)

/-- The token loop of `_eval_rpn` never raises `invalidExpression` itself
(with the default registry); that error comes only from the final
stack-size check. -/
theorem evalRpnAux_default_ne_invalidExpression (ts : List Token) :
    ∀ st : List ℚ, evalRpnAux defaultEngine ts st ≠ .error .invalidExpression := by
  induction ts with
  | nil =>
    intro st h
    cases h
  | cons t ts ih =>
    intro st h
    cases t with
    | num v => exact ih (v :: st) h
    | lparen => cases h
    | rparen => cases h
    | op s =>
      rcases st with _ | ⟨b, st'⟩
      · cases h
      · rcases st' with _ | ⟨a, rest⟩
        · cases h
        · simp only [evalRpnAux] at h
          cases ha : defaultEngine.apply s a b with
          | error err =>
            rw [ha] at h
            have h' : (Except.error err : Except CalcError (List ℚ)) =
                .error .invalidExpression := h
            injection h' with h''
            subst h''
            rcases apply_default_error s a b _ ha with h3 | h3 <;> cases h3
          | ok res =>
            rw [ha] at h
            exact ih (res :: rest) h

/-- Unfolding one step of the precedence-popping loop when both lookups
succeed. -/
theorem popWhileGE_step (e : OperationEngine) (cur s : String) (ops output : List Token)
    (topOp curOp : Operation) (h1 : e.get s = .ok topOp) (h2 : e.get cur = .ok curOp) :
    popWhileGE e cur (Token.op s :: ops) output =
      if topOp.precedence ≥ curOp.precedence then
        popWhileGE e cur ops (output ++ [Token.op s])
      else .ok (Token.op s :: ops, output) := by
  simp only [popWhileGE]
  rw [h1, h2]
  rfl

/-- The precedence-popping loop never raises `mismatchedParentheses`; its
only failure is an unregistered-operator lookup. -/
theorem popWhileGE_no_mismatch (e : OperationEngine) (cur : String) (ops : List Token) :
    ∀ output : List Token,
      popWhileGE e cur ops output ≠ .error .mismatchedParentheses := by
  induction ops with
  | nil =>
    intro output h
    cases h
  | cons t ops ih =>
    intro output h
    cases t with
    | num v => cases h
    | lparen => cases h
    | rparen => cases h
    | op s =>
      simp only [popWhileGE] at h
      cases hg : e.get s with
      | error err =>
        rw [hg] at h
        have h' : (Except.error err : Except CalcError (List Token × List Token)) =
            .error .mismatchedParentheses := h
        injection h' with h''
        subst h''
        have := get_error_unknown e s _ hg
        cases this
      | ok topOp =>
        rw [hg] at h
        cases hc : e.get cur with
        | error err =>
          rw [hc] at h
          have h' : (Except.error err : Except CalcError (List Token × List Token)) =
              .error .mismatchedParentheses := h
          injection h' with h''
          subst h''
          have := get_error_unknown e cur _ hc
          cases this
        | ok curOp =>
          rw [hc] at h
          have h' : (if topOp.precedence ≥ curOp.precedence then
              popWhileGE e cur ops (output ++ [Token.op s])
            else .ok (Token.op s :: ops, output)) = .error .mismatchedParentheses := h
          split at h'
          · exact ih _ h'
          · cases h'

/-- The right-parenthesis loop fails (necessarily with
`mismatchedParentheses`) exactly when no left parenthesis is on the
stack. -/
theorem popUntilLParen_mismatch_iff (ops : List Token) :
    ∀ output : List Token,
      popUntilLParen ops output = .error .mismatchedParentheses ↔
        Token.lparen ∉ ops := by
  induction ops with
  | nil => intro output; simp [popUntilLParen]
  | cons t ops ih =>
    intro output
    cases t with
    | lparen => simp [popUntilLParen]
    | num v => simp [popUntilLParen, ih]
    | op s => simp [popUntilLParen, ih]
    | rparen => simp [popUntilLParen, ih]

/-- The final drain fails (necessarily with `mismatchedParentheses`)
exactly when a left parenthesis is still on the stack. -/
theorem drainOps_mismatch_iff (ops : List Token) :
    ∀ output : List Token,
      drainOps ops output = .error .mismatchedParentheses ↔
        Token.lparen ∈ ops := by
  induction ops with
  | nil => intro output; simp [drainOps]
  | cons t ops ih =>
    intro output
    cases t with
    | lparen => simp [drainOps]
    | num v => simp [drainOps, ih]
    | op s => simp [drainOps, ih]
    | rparen => simp [drainOps, ih]

/-- After `setOp`, looking up the written symbol returns the new entry. -/
theorem findOp_setOp_self (l : List (String × Operation)) (s : String) (op : Operation) :
    findOp (setOp l s op) s = some op := by
  induction l with
  | nil => simp [setOp, findOp]
  | cons kv rest ih =>
    obtain ⟨k, v⟩ := kv
    simp only [setOp]
    split
    · simp [findOp]
    · next h => simp [findOp, h, ih]

/-- The precedence-popping loop only ever appends operator tokens to the
output and returns a sub-stack of its input stack. -/
theorem popWhileGE_inv (e : OperationEngine) (cur : String) (ops : List Token) :
    ∀ (output : List Token) (pr : List Token × List Token),
      popWhileGE e cur ops output = .ok pr →
      (∀ t ∈ output, t.isNumOrOp = true) →
      (∀ t ∈ ops, t.isOpOrParen = true) →
      (∀ t ∈ pr.2, t.isNumOrOp = true) ∧ (∀ t ∈ pr.1, t.isOpOrParen = true) := by
  induction ops with
  | nil =>
    intro output pr h hout hops
    injection h with h'
    subst h'
    exact ⟨hout, hops⟩
  | cons t ops ih =>
    intro output pr h hout hops
    cases t with
    | num v =>
      injection h with h'
      subst h'
      exact ⟨hout, hops⟩
    | lparen =>
      injection h with h'
      subst h'
      exact ⟨hout, hops⟩
    | rparen =>
      injection h with h'
      subst h'
      exact ⟨hout, hops⟩
    | op s =>
      simp only [popWhileGE] at h
      cases hg : e.get s with
      | error err =>
        rw [hg] at h
        have h' : (Except.error err : Except CalcError (List Token × List Token)) =
            .ok pr := h
        cases h'
      | ok topOp =>
        rw [hg] at h
        cases hc : e.get cur with
        | error err =>
          rw [hc] at h
          have h' : (Except.error err : Except CalcError (List Token × List Token)) =
              .ok pr := h
          cases h'
        | ok curOp =>
          rw [hc] at h
          have h' : (if topOp.precedence ≥ curOp.precedence then
              popWhileGE e cur ops (output ++ [Token.op s])
            else .ok (Token.op s :: ops, output)) = .ok pr := h
          split at h'
          · refine ih (output ++ [Token.op s]) pr h' ?_
              (fun t ht => hops t (List.mem_cons_of_mem _ ht))
            intro t ht
            rcases List.mem_append.mp ht with hm | hm
            · exact hout t hm
            · rw [List.mem_singleton.mp hm]
              rfl
          · injection h' with h''
            subst h''
            exact ⟨hout, hops⟩

/-- The right-parenthesis loop preserves the shape invariants: the output
receives only stack tokens that are operators, and the returned stack is a
sub-stack of the input stack. -/
theorem popUntilLParen_inv (ops : List Token) :
    ∀ (output : List Token) (pr : List Token × List Token),
      popUntilLParen ops output = .ok pr →
      (∀ t ∈ output, t.isNumOrOp = true) →
      (∀ t ∈ ops, t.isOpOrParen = true) →
      (∀ t ∈ pr.2, t.isNumOrOp = true) ∧ (∀ t ∈ pr.1, t.isOpOrParen = true) := by
  induction ops with
  | nil =>
    intro output pr h hout hops
    cases h
  | cons t ops ih =>
    intro output pr h hout hops
    cases t with
    | lparen =>
      injection h with h'
      subst h'
      exact ⟨hout, fun t ht => hops t (List.mem_cons_of_mem _ ht)⟩
    | op s =>
      refine ih (output ++ [Token.op s]) pr h ?_
        (fun t ht => hops t (List.mem_cons_of_mem _ ht))
      intro t ht
      rcases List.mem_append.mp ht with hm | hm
      · exact hout t hm
      · rw [List.mem_singleton.mp hm]
        rfl
    | num v =>
      have := hops (Token.num v) (List.mem_cons_self _ _)
      simp [Token.isOpOrParen] at this
    | rparen =>
      have := hops Token.rparen (List.mem_cons_self _ _)
      simp [Token.isOpOrParen] at this

/-- The final drain moves only operator tokens from the stack to the
output. -/
theorem drainOps_inv (ops : List Token) :
    ∀ (output res : List Token),
      drainOps ops output = .ok res →
      (∀ t ∈ output, t.isNumOrOp = true) →
      (∀ t ∈ ops, t.isOpOrParen = true) →
      ∀ t ∈ res, t.isNumOrOp = true := by
  induction ops with
  | nil =>
    intro output res h hout hops
    injection h with h'
    subst h'
    exact hout
  | cons t ops ih =>
    intro output res h hout hops
    cases t with
    | lparen => cases h
    | op s =>
      refine ih (output ++ [Token.op s]) res h ?_
        (fun t ht => hops t (List.mem_cons_of_mem _ ht))
      intro t ht
      rcases List.mem_append.mp ht with hm | hm
      · exact hout t hm
      · rw [List.mem_singleton.mp hm]
        rfl
    | num v =>
      have := hops (Token.num v) (List.mem_cons_self _ _)
      simp [Token.isOpOrParen] at this
    | rparen =>
      have := hops Token.rparen (List.mem_cons_self _ _)
      simp [Token.isOpOrParen] at this

/-- The main conversion loop keeps only number and operator tokens in its
output, and only operator and left-parenthesis tokens on its stack. -/
theorem toRpnAux_inv (e : OperationEngine) (ts : List Token) :
    ∀ (output ops : List Token) (prev : Option Token) (res : List Token),
      toRpnAux e ts output ops prev = .ok res →
      (∀ t ∈ output, t.isNumOrOp = true) →
      (∀ t ∈ ops, t.isOpOrParen = true) →
      ∀ t ∈ res, t.isNumOrOp = true := by
  induction ts with
  | nil =>
    intro output ops prev res h hout hops
    exact drainOps_inv ops output res h hout hops
  | cons t ts ih =>
    intro output ops prev res h hout hops
    cases t with
    | num v =>
      refine ih (output ++ [Token.num v]) ops (some (Token.num v)) res h ?_ hops
      intro t ht
      rcases List.mem_append.mp ht with hm | hm
      · exact hout t hm
      · rw [List.mem_singleton.mp hm]
        rfl
    | lparen =>
      refine ih output (Token.lparen :: ops) (some Token.lparen) res h hout ?_
      intro t ht
      rcases List.mem_cons.mp ht with rfl | hm
      · rfl
      · exact hops t hm
    | rparen =>
      simp only [toRpnAux] at h
      cases hp : popUntilLParen ops output with
      | error err =>
        rw [hp] at h
        have h' : (Except.error err : Except CalcError (List Token)) = .ok res := h
        cases h'
      | ok pr =>
        rw [hp] at h
        have hpr := popUntilLParen_inv ops output pr hp hout hops
        exact ih pr.2 pr.1 (some Token.rparen) res h hpr.1 hpr.2
    | op s =>
      simp only [toRpnAux] at h
      have hout1 : ∀ t ∈ (if s = "-" ∧ unaryContext prev then
          output ++ [Token.num 0] else output), t.isNumOrOp = true := by
        split
        · intro t ht
          rcases List.mem_append.mp ht with hm | hm
          · exact hout t hm
          · rw [List.mem_singleton.mp hm]
            rfl
        · exact hout
      cases hp : popWhileGE e s ops
          (if s = "-" ∧ unaryContext prev then output ++ [Token.num 0] else output) with
      | error err =>
        rw [hp] at h
        have h' : (Except.error err : Except CalcError (List Token)) = .ok res := h
        cases h'
      | ok pr =>
        rw [hp] at h
        have hpr := popWhileGE_inv e s ops _ pr hp hout1 hops
        refine ih pr.2 (Token.op s :: pr.1) (some (Token.op s)) res h hpr.1 ?_
        intro t ht
        rcases List.mem_cons.mp ht with rfl | hm
        · rfl
        · exact hpr.2 t hm

/-! ## Claim theorems -/

/-- C1, code evaluated at the failing inputs: with the default registry the
pipeline on `"1 + 2 * 3"` terminates with the one-element value stack `[7]`
and on `"2 ^ 3 * 2"` with `[16]`.  `evaluate` returns that one-element
list itself (the source's `return stack`), not the bare number that the
claim (and the source's own declared return type and tests) promises. -/
theorem claim_C1_code_result :
    evaluateDefault "1 + 2 * 3" = .ok [7] ∧ evaluateDefault "2 ^ 3 * 2" = .ok [16] := by
  constructor
  · have h : evaluateDefault "1 + 2 * 3" =
        .ok [parseFloat ['1'] + parseFloat ['2'] * parseFloat ['3']] := rfl
    rw [h, parseFloat_one, parseFloat_two, parseFloat_three]
    norm_num
  · have h : evaluateDefault "2 ^ 3 * 2" =
        .ok [qpow (parseFloat ['2']) (parseFloat ['3']) * parseFloat ['2']] := rfl
    rw [h, parseFloat_two, parseFloat_three]
    have h3 : Int.toNat 3 = 3 := rfl
    norm_num [qpow, h3]

/-- C10: on the input `"--1"` the pipeline succeeds: the tokeniser yields
`[-, -, 1]`, the converter emits the implicit zero twice and pops the first
`-` when the second arrives (equal precedence), producing the postfix
sequence `[0, 0, -, 1, -]`, and the final value stack is `[-1]`
(computing `(0 - 0) - 1`), not `[1]`. -/
theorem claim_C10_double_unary_minus :
    tokenise defaultEngine "--1" = .ok [Token.op "-", Token.op "-", Token.num 1] ∧
    toRpn defaultEngine [Token.op "-", Token.op "-", Token.num 1] =
      .ok [Token.num 0, Token.num 0, Token.op "-", Token.num 1, Token.op "-"] ∧
    evaluateDefault "--1" = .ok [0 - 0 - 1] ∧
    evaluateDefault "--1" = .ok [-1] ∧ evaluateDefault "--1" ≠ .ok [1] := by
  have ht0 : tokenise defaultEngine "--1" =
      .ok [Token.op "-", Token.op "-", Token.num (parseFloat ['1'])] := rfl
  have ht : tokenise defaultEngine "--1" = .ok [Token.op "-", Token.op "-", Token.num 1] := by
    rw [ht0, parseFloat_one]
  have h0 : evaluateDefault "--1" = .ok [0 - 0 - parseFloat ['1']] := rfl
  have he : evaluateDefault "--1" = .ok [0 - 0 - 1] := by rw [h0, parseFloat_one]
  have he' : evaluateDefault "--1" = .ok [-1] := by rw [he]; norm_num
  refine ⟨ht, rfl, he, he', ?_⟩
  rw [he']
  norm_num

/-- C2: when an operator token arrives, the converter pops the stacked
operator on top whenever its precedence is greater than or equal to the
current operator's (and stops as soon as it is strictly smaller), for
every engine and every pair of registered operators; applied uniformly to
`^` this grouping is left-to-right, so `"2^3^2"` produces the postfix
sequence `[2, 3, ^, 2, ^]` and the final value `(2^3)^2 = 64`, not 512. -/
theorem claim_C2_ge_popping_left_assoc :
    (∀ (e : OperationEngine) (cur s : String) (ops output : List Token)
        (topOp curOp : Operation),
        e.get s = .ok topOp → e.get cur = .ok curOp →
        (topOp.precedence ≥ curOp.precedence →
          popWhileGE e cur (Token.op s :: ops) output =
            popWhileGE e cur ops (output ++ [Token.op s])) ∧
        (topOp.precedence < curOp.precedence →
          popWhileGE e cur (Token.op s :: ops) output =
            .ok (Token.op s :: ops, output))) ∧
    toRpn defaultEngine
        [Token.num 2, Token.op "^", Token.num 3, Token.op "^", Token.num 2] =
      .ok [Token.num 2, Token.num 3, Token.op "^", Token.num 2, Token.op "^"] ∧
    evaluateDefault "2^3^2" = .ok [64] ∧ evaluateDefault "2^3^2" ≠ .ok [512] := by
  have he : evaluateDefault "2^3^2" = .ok [64] := by
    have h : evaluateDefault "2^3^2" =
        .ok [qpow (qpow (parseFloat ['2']) (parseFloat ['3'])) (parseFloat ['2'])] := rfl
    rw [h, parseFloat_two, parseFloat_three]
    have h3 : Int.toNat 3 = 3 := rfl
    have h2 : Int.toNat 2 = 2 := rfl
    norm_num [qpow, h3, h2]
  refine ⟨?_, rfl, he, ?_⟩
  · intro e cur s ops output topOp curOp h1 h2
    have hstep : popWhileGE e cur (Token.op s :: ops) output =
        if topOp.precedence ≥ curOp.precedence then
          popWhileGE e cur ops (output ++ [Token.op s])
        else .ok (Token.op s :: ops, output) := by
      simp only [popWhileGE]
      rw [h1, h2]
      rfl
    constructor
    · intro hge
      rw [hstep, if_pos hge]
    · intro hlt
      rw [hstep, if_neg (not_le.mpr hlt)]
  · rw [he]
    norm_num

/-- C2 witness: with the default registry, a `^` arriving while `^` is on
the stack pops the stacked `^` (equal precedence, 3 ≥ 3). -/
theorem claim_C2_witness :
    popWhileGE defaultEngine "^" [Token.op "^"] [] =
      popWhileGE defaultEngine "^" [] ([] ++ [Token.op "^"]) :=
  (claim_C2_ge_popping_left_assoc.1 defaultEngine "^" "^" [] []
      ⟨"^", fun a b => .ok (qpow a b), 3, true⟩
      ⟨"^", fun a b => .ok (qpow a b), 3, true⟩ rfl rfl).1 (by decide)

/-- C3: whenever a `-` operator token is read and the previous token is
none, an operator, or a left parenthesis, an implicit `Number(0.0)` is
appended to the output before the `-` is handled as an ordinary binary
operator; consequently `"-1 + 2"` and `"-(-1)"` both evaluate to the final
value 1. -/
theorem claim_C3_unary_minus_normalisation :
    (∀ (e : OperationEngine) (ts output ops : List Token) (prev : Option Token),
        unaryContext prev = true →
        toRpnAux e (Token.op "-" :: ts) output ops prev = do
          let p ← popWhileGE e "-" ops (output ++ [Token.num 0])
          toRpnAux e ts p.2 (Token.op "-" :: p.1) (some (Token.op "-"))) ∧
    evaluateDefault "-1 + 2" = .ok [1] ∧ evaluateDefault "-(-1)" = .ok [1] := by
  refine ⟨?_, ?_, ?_⟩
  · intro e ts output ops prev hprev
    simp [toRpnAux, hprev]
  · have h : evaluateDefault "-1 + 2" =
        .ok [0 - parseFloat ['1'] + parseFloat ['2']] := rfl
    rw [h, parseFloat_one, parseFloat_two]
    norm_num
  · have h : evaluateDefault "-(-1)" = .ok [0 - (0 - parseFloat ['1'])] := rfl
    rw [h, parseFloat_one]
    norm_num

/-- C4: with the default registry, postfix evaluation fails with
`invalidExpression` exactly when the token loop completes and the value
stack holds a number of values different from one; in particular the empty
input string fails that way, as does a postfix sequence with an extra
unconsumed number. -/
theorem claim_C4_invalid_expression_iff :
    (∀ ts : List Token,
        evalRpn defaultEngine ts = .error .invalidExpression ↔
          ∃ stack : List ℚ,
            evalRpnAux defaultEngine ts [] = .ok stack ∧ stack.length ≠ 1) ∧
    evaluateDefault "" = .error .invalidExpression ∧
    evalRpn defaultEngine [Token.num 1, Token.num 2] = .error .invalidExpression := by
  refine ⟨?_, rfl, rfl⟩
  intro ts
  unfold evalRpn
  cases haux : evalRpnAux defaultEngine ts [] with
  | error err =>
    constructor
    · intro h
      have h' : (Except.error err : Except CalcError (List ℚ)) =
          .error .invalidExpression := h
      injection h' with h''
      subst h''
      exact absurd haux (evalRpnAux_default_ne_invalidExpression ts [])
    · rintro ⟨stack, hs, -⟩
      cases hs
  | ok st =>
    constructor
    · intro h
      have h' : (if st.length ≠ 1 then
            (Except.error .invalidExpression : Except CalcError (List ℚ))
          else .ok st) = .error .invalidExpression := h
      by_cases hl : st.length ≠ 1
      · exact ⟨st, rfl, hl⟩
      · rw [if_neg hl] at h'
        cases h'
    · rintro ⟨stack, hs, hl⟩
      injection hs with hs'
      rw [← hs'] at hl
      show (if st.length ≠ 1 then
          (Except.error .invalidExpression : Except CalcError (List ℚ))
        else .ok st) = .error .invalidExpression
      rw [if_pos hl]

/-- C5: conversion raises `mismatchedParentheses` in exactly the two
claimed situations.  The precedence-popping loop never raises it; the
right-parenthesis loop raises it exactly when the stack holds no left
parenthesis; the final drain raises it exactly when a left parenthesis
remains.  Hence both `"(1 + 2"` and `"1 + 2)"` fail with that kind. -/
theorem claim_C5_mismatched_parentheses :
    (∀ (e : OperationEngine) (cur : String) (ops output : List Token),
        popWhileGE e cur ops output ≠ .error .mismatchedParentheses) ∧
    (∀ ops output : List Token,
        popUntilLParen ops output = .error .mismatchedParentheses ↔
          Token.lparen ∉ ops) ∧
    (∀ ops output : List Token,
        drainOps ops output = .error .mismatchedParentheses ↔
          Token.lparen ∈ ops) ∧
    evaluateDefault "(1 + 2" = .error .mismatchedParentheses ∧
    evaluateDefault "1 + 2)" = .error .mismatchedParentheses :=
  ⟨fun e cur ops output => popWhileGE_no_mismatch e cur ops output,
   fun ops output => popUntilLParen_mismatch_iff ops output,
   fun ops output => drainOps_mismatch_iff ops output,
   rfl, rfl⟩

/-- C6: default division fails with the `ZeroDivisionError` kind (the
spec's `ArithmeticFailure`) if and only if the right operand is exactly
zero; `apply` propagates that failure; every nonzero right operand yields
the quotient; and `"1 / 0"` fails with that kind end-to-end. -/
theorem claim_C6_division_by_zero :
    (∀ a b : ℚ, safeDivide a b = .error .zeroDivision ↔ b = 0) ∧
    (∀ a : ℚ, defaultEngine.apply "/" a 0 = .error .zeroDivision) ∧
    (∀ a b : ℚ, b ≠ 0 → defaultEngine.apply "/" a b = .ok (a / b)) ∧
    evaluateDefault "1 / 0" = .error .zeroDivision := by
  have hsd : ∀ a b : ℚ, safeDivide a b = .error .zeroDivision ↔ b = 0 := by
    intro a b
    unfold safeDivide
    split
    · next hb => simp [hb]
    · next hb => simp [hb]
  refine ⟨hsd, ?_, ?_, ?_⟩
  · intro a
    show safeDivide a 0 = .error .zeroDivision
    exact (hsd a 0).mpr rfl
  · intro a b hb
    show safeDivide a b = .ok (a / b)
    unfold safeDivide
    rw [if_neg hb]
  · have ht : tokenise defaultEngine "1 / 0" =
        .ok [Token.num 1, Token.op "/", Token.num 0] := by
      have h0 : tokenise defaultEngine "1 / 0" =
          .ok [Token.num (parseFloat ['1']), Token.op "/",
               Token.num (parseFloat ['0'])] := rfl
      rw [h0, parseFloat_one, parseFloat_zero]
    rw [show evaluateDefault "1 / 0" = evaluate defaultEngine "1 / 0" from rfl,
        evaluate_tokens defaultEngine _ _ ht]
    rw [show toRpn defaultEngine [Token.num 1, Token.op "/", Token.num 0] =
        .ok [Token.num 1, Token.num 0, Token.op "/"] from rfl]
    show evalRpn defaultEngine [Token.num 1, Token.num 0, Token.op "/"] =
      .error .zeroDivision
    have ha : defaultEngine.apply "/" (1 : ℚ) (0 : ℚ) = .error .zeroDivision := by
      show safeDivide 1 0 = .error .zeroDivision
      exact (hsd 1 0).mpr rfl
    have haux : evalRpnAux defaultEngine [Token.num 1, Token.num 0, Token.op "/"] [] =
        .error .zeroDivision := by
      show (do
        let res ← defaultEngine.apply "/" (1 : ℚ) (0 : ℚ)
        evalRpnAux defaultEngine [] [res]) = .error .zeroDivision
      rw [ha]
      rfl
    unfold evalRpn
    rw [haux]
    rfl

/-- C6 witness: division with the concrete nonzero right operand 2. -/
theorem claim_C6_witness :
    defaultEngine.apply "/" 6 2 = .ok (6 / 2) :=
  claim_C6_division_by_zero.2.2.1 6 2 (by norm_num)

/-- C7: whenever the scanning loop reaches a character that is not
whitespace, does not start a numeric literal, is not a parenthesis and is
not a registered operator symbol, it fails with `unexpectedCharacter`
carrying the character's 0-based position and the character itself; in
particular `"1 + a"` fails reporting position 4 and character `a`. -/
theorem claim_C7_unexpected_character :
    (∀ (e : OperationEngine) (fuel i : Nat) (ch : Char) (rest : List Char),
        ¬ch.isWhitespace →
        ¬(ch.isDigit ∨ (ch = '.' ∧ (rest.headD ' ').isDigit)) →
        ch ≠ '(' → ch ≠ ')' →
        ¬e.has (String.mk [ch]) →
        tokeniseAux e (fuel + 1) (ch :: rest) i = .error (.unexpectedCharacter i ch)) ∧
    evaluateDefault "1 + a" = .error (.unexpectedCharacter 4 'a') := by
  constructor
  · intro e fuel i ch rest h1 h2 h3 h4 h5
    simp only [tokeniseAux]
    rw [if_neg h1, if_neg h2, if_neg h3, if_neg h4, if_neg h5]
  · rfl

/-- C7 witness: the character `a` at position 4. -/
theorem claim_C7_witness :
    tokeniseAux defaultEngine 1 ['a'] 4 = .error (.unexpectedCharacter 4 'a') :=
  claim_C7_unexpected_character.1 defaultEngine 0 4 'a' []
    (by decide) (by decide) (by decide) (by decide) (by decide)

/-- C8: `register` fails with `invalidOperatorSymbol` if and only if the
symbol is empty or longer than one character; a single-character symbol
always succeeds, writing the new operation over any previous binding, so
afterwards `has` is true and `get` returns the new entry. -/
theorem claim_C8_register :
    ∀ (e : OperationEngine) (s : String) (f : ℚ → ℚ → Except CalcError ℚ)
      (p : Int) (assoc : Bool),
      (e.register s f p assoc = .error .invalidOperatorSymbol ↔
        (s.length = 0 ∨ 1 < s.length)) ∧
      (s.length = 1 →
        e.register s f p assoc = .ok ⟨setOp e.operations s ⟨s, f, p, assoc⟩⟩ ∧
        OperationEngine.has ⟨setOp e.operations s ⟨s, f, p, assoc⟩⟩ s = true ∧
        OperationEngine.get ⟨setOp e.operations s ⟨s, f, p, assoc⟩⟩ s =
          .ok ⟨s, f, p, assoc⟩) := by
  intro e s f p assoc
  constructor
  · unfold OperationEngine.register
    split
    · next h => exact iff_of_true rfl (by omega)
    · next h => exact iff_of_false (by simp) (by omega)
  · intro hl
    refine ⟨?_, ?_, ?_⟩
    · unfold OperationEngine.register
      rw [if_neg (by omega)]
    · show (findOp (setOp e.operations s ⟨s, f, p, assoc⟩) s).isSome = true
      rw [findOp_setOp_self]
      rfl
    · show (match findOp (setOp e.operations s ⟨s, f, p, assoc⟩) s with
        | some op => (Except.ok op : Except CalcError Operation)
        | none => .error (.unknownOperator s)) = .ok ⟨s, f, p, assoc⟩
      rw [findOp_setOp_self]

/-- C8 witness: registering `%` over the default registry. -/
theorem claim_C8_witness :
    defaultEngine.register "%" (fun a _ => .ok a) 2 true =
        .ok ⟨setOp defaultEngine.operations "%" ⟨"%", fun a _ => .ok a, 2, true⟩⟩ ∧
    OperationEngine.has
        ⟨setOp defaultEngine.operations "%" ⟨"%", fun a _ => .ok a, 2, true⟩⟩ "%" = true ∧
    OperationEngine.get
        ⟨setOp defaultEngine.operations "%" ⟨"%", fun a _ => .ok a, 2, true⟩⟩ "%" =
      .ok ⟨"%", fun a _ => .ok a, 2, true⟩ :=
  (claim_C8_register defaultEngine "%" (fun a _ => .ok a) 2 true).2 (by decide)

/-- C3 witness: a leading `-` (no previous token) triggers the implicit
zero. -/
theorem claim_C3_witness :
    toRpnAux defaultEngine [Token.op "-"] [] [] none =
      (do
        let p ← popWhileGE defaultEngine "-" [] ([] ++ [Token.num 0])
        toRpnAux defaultEngine [] p.2 (Token.op "-" :: p.1) (some (Token.op "-"))) :=
  claim_C3_unary_minus_normalisation.1 defaultEngine [] [] [] none rfl

/-- C9: whenever conversion succeeds, the produced postfix sequence holds
only number and operator tokens; and on any such token list the
evaluator's invalid-token failure is unreachable (for any engine whose
registered operator functions never produce that failure kind
themselves). -/
theorem claim_C9_postfix_only_num_op :
    (∀ (e : OperationEngine) (ts res : List Token),
        toRpn e ts = .ok res → ∀ t ∈ res, t.isNumOrOp = true) ∧
    (∀ (e : OperationEngine) (ts : List Token),
        (∀ p ∈ e.operations, ∀ (a b : ℚ), p.2.func a b ≠ .error .invalidTokenInRPN) →
        (∀ t ∈ ts, t.isNumOrOp = true) →
        ∀ st : List ℚ, evalRpnAux e ts st ≠ .error .invalidTokenInRPN) := by
  constructor
  · intro e ts res h
    exact toRpnAux_inv e ts [] [] none res h (by simp) (by simp)
  · intro e ts hfuncs
    induction ts with
    | nil =>
      intro hts st h
      cases h
    | cons t ts ih =>
      intro hts st h
      cases t with
      | lparen =>
        have := hts Token.lparen (List.mem_cons_self _ _)
        simp [Token.isNumOrOp] at this
      | rparen =>
        have := hts Token.rparen (List.mem_cons_self _ _)
        simp [Token.isNumOrOp] at this
      | num v =>
        exact ih (fun t ht => hts t (List.mem_cons_of_mem _ ht)) (v :: st) h
      | op s =>
        rcases st with _ | ⟨b, st'⟩
        · cases h
        · rcases st' with _ | ⟨a, rest⟩
          · cases h
          · simp only [evalRpnAux] at h
            cases ha : e.apply s a b with
            | error err =>
              rw [ha] at h
              have h' : (Except.error err : Except CalcError (List ℚ)) =
                  .error .invalidTokenInRPN := h
              injection h' with h''
              subst h''
              rcases apply_error_cases e s a b _ ha with h3 | ⟨op, hf, hfunc⟩
              · cases h3
              · exact hfuncs (s, op) (findOp_mem _ _ _ hf) a b hfunc
            | ok res =>
              rw [ha] at h
              exact ih (fun t ht => hts t (List.mem_cons_of_mem _ ht)) (res :: rest) h

/-- C9 witness: a concrete conversion output and evaluator run. -/
theorem claim_C9_witness :
    (Token.num 1).isNumOrOp = true ∧
    evalRpnAux ⟨[]⟩ [Token.num 1] [] ≠ .error .invalidTokenInRPN :=
  ⟨claim_C9_postfix_only_num_op.1 defaultEngine [Token.num 1] ([] ++ [Token.num 1]) rfl
      (Token.num 1) (by simp),
   claim_C9_postfix_only_num_op.2 ⟨[]⟩ [Token.num 1] (by simp) (by decide) []⟩

end PyCalc
